import Mathlib

/-!
Shallow embedding of `UniqueTimedEntryQueue` from
`cityssm/node-unique-timed-entry-queue` (src/index.ts, src/utilities.ts).

The repository holds two evolutionary variants of the class in
`src/index.ts`:
* variant 1 (lines 12-181): throws on a negative default delay, pending
  map stores only timer handles, no event listeners, no duplicate guard;
* variant 2 (lines 197-509, the richer variant the spec targets): clamps
  a negative default delay with `Math.max(0, d)`, pending map stores
  `{timeout, value}`, event listeners, a duplicate guard on admission
  (`queue.includes(entry)`), `enqueuePending`, and count-returning clears.

Modelling choices:
* JS `Map` is an insertion-ordered association list with unique keys
  (`mapSet` keeps position on overwrite, `mapDelete` removes the single
  matching entry, faithful to `Map.set`/`Map.delete`).
* Timer handles are implicit: a key's presence in the pending map means
  its (unique) armed timer has neither fired nor been canceled, exactly
  the invariant stated in the spec.  Timer expiry is the explicit state
  transition `fireTimer`, whose body is the `setTimeout` callback of
  `enqueue` (src/index.ts lines 356-368); an absent key means the timer
  was canceled with `clearTimeout` and the callback never runs.
* Listener callbacks are identified by their listener ids; an invocation
  of a listener is recorded in the `firedEvents` log as the pair
  (listener id, entry), appended in registration order by
  `triggerEvents` (src/index.ts lines 503-508).
* `valueToString` (src/utilities.ts) is embedded on a universe `JSVal`
  of primitive JS values; operations are parametric in the key function
  `keyOf`, matching the spec's injectable `keyOf(entry) -> string`.
* Methods are state transformers `Queue T -> Queue T × result`; queries
  return the state they were given, which is the frame property the spec
  asserts for them.
-/

namespace UTEQ

/-- Universe of primitive JavaScript entry values used to instantiate the
generic entry type `T` concretely.  Structure-equality (`DecidableEq`)
coincides with JS `===` on these primitives, which is what
`queue.includes(entry)` uses. -/
inductive JSVal where
  | str (s : String)
  | num (n : Int)
  | boolean (b : Bool)
  | nul
  | undef
deriving DecidableEq, Repr

/-- JS `Boolean.prototype.toString`. -/
def jsBoolToString : Bool → String
  | true => "true"
  | false => "false"

/-- Embedding of `valueToString` (src/utilities.ts): strings are returned
as-is, numbers/booleans/bigints via `.toString()`, null and undefined map
to the empty string.  (The `JSON.stringify` fallback for objects is outside
the primitive universe `JSVal`; the queue operations stay parametric in
`keyOf` for that case, as the spec prescribes.) -/
def valueToString : JSVal → String
  | .str s => s
  | .num n => toString n
  | .boolean b => jsBoolToString b
  | .nul => ""
  | .undef => ""

/-- JS `Map.prototype.has` on an association list. -/
def mapHas {α : Type} : List (String × α) → String → Bool
  | [], _ => false
  | p :: rest, k => if p.1 = k then true else mapHas rest k

/-- JS `Map.prototype.get` on an association list. -/
def mapGetValue {α : Type} : List (String × α) → String → Option α
  | [], _ => none
  | p :: rest, k => if p.1 = k then some p.2 else mapGetValue rest k

/-- JS `Map.prototype.delete` on an association list: removes the (unique)
entry with the given key, keeping the order of the others. -/
def mapDelete {α : Type} : List (String × α) → String → List (String × α)
  | [], _ => []
  | p :: rest, k => if p.1 = k then rest else p :: mapDelete rest k

/-- JS `Map.prototype.set` on an association list: overwrites in place when
the key exists, otherwise appends at the end (insertion order). -/
def mapSet {α : Type} : List (String × α) → String → α → List (String × α)
  | [], k, v => [(k, v)]
  | p :: rest, k, v => if p.1 = k then (k, v) :: rest else p :: mapSet rest k v

/-- JS `Array.prototype.includes` (SameValueZero, i.e. `===` on
primitives). -/
def jsIncludes {α : Type} [DecidableEq α] : List α → α → Bool
  | [], _ => false
  | x :: rest, a => if x = a then true else jsIncludes rest a

/-- Removal of the (unique) occurrence of a key from a JS object's key
list, as done by `delete listeners[listenerId]`. -/
def listRemove {α : Type} [DecidableEq α] : List α → α → List α
  | [], _ => []
  | x :: rest, a => if x = a then rest else x :: listRemove rest a

/-- State of variant 1 of `UniqueTimedEntryQueue` (src/index.ts lines
12-181): the pending map stores only timer handles, so only its keys are
modelled. -/
structure QueueV1 (T : Type) where
  enqueueDelayMilliseconds : Int
  pendingEntries : List String
  queue : List T
deriving DecidableEq, Repr

/-- Constructor of variant 1 (src/index.ts lines 22-40): throws
`enqueueDelayMilliseconds must be non-negative` on a negative delay,
before any state is created; otherwise stores the delay unchanged with
empty pending map and queue. -/
def constructV1 (T : Type) (enqueueDelayMilliseconds : Int) :
    Except String (QueueV1 T) :=
  if enqueueDelayMilliseconds < 0 then
    Except.error "enqueueDelayMilliseconds must be non-negative"
  else
    Except.ok
      { enqueueDelayMilliseconds := enqueueDelayMilliseconds
        pendingEntries := []
        queue := [] }

/-- State of variant 2 of `UniqueTimedEntryQueue` (src/index.ts lines
197-509).  `pendingEntries` maps each key to the stored `value` (the
armed timer handle is implicit in the key's presence); `eventListeners`
is the id list of the `enqueue` listeners in registration order;
`firedEvents` is the log of listener invocations, each recorded as
(listener id, entry). -/
structure Queue (T : Type) where
  enqueueDelayMilliseconds : Int
  eventListeners : List String
  pendingEntries : List (String × T)
  queue : List T
  firedEvents : List (String × T)
deriving DecidableEq, Repr

/-- Constructor of variant 2 (src/index.ts lines 220-243): clamps the
delay with `Math.max(0, enqueueDelayMilliseconds)` and starts with empty
listener registry, pending map and queue. -/
def initQueue (T : Type) (enqueueDelayMilliseconds : Int) : Queue T :=
  { enqueueDelayMilliseconds := max 0 enqueueDelayMilliseconds
    eventListeners := []
    pendingEntries := []
    queue := []
    firedEvents := [] }

/-- Embedding of `addEventListener` (src/index.ts lines 251-261); the
generated unique listener id is passed in as a parameter (the generator is
random, the spec only requires ids to be collision-resistant).  Writing to
an existing id overwrites that listener's callback in place, leaving the
id list unchanged. -/
def addEventListener {T : Type} (q : Queue T) (listenerId : String) : Queue T :=
  if jsIncludes q.eventListeners listenerId then q
  else { q with eventListeners := q.eventListeners ++ [listenerId] }

/-- Embedding of `removeEventListener` (src/index.ts lines 476-485): a
registered id is deleted, an unknown id is a silent no-op. -/
def removeEventListener {T : Type} (q : Queue T) (listenerId : String) : Queue T :=
  { q with eventListeners := listRemove q.eventListeners listenerId }

/-- Embedding of the private `triggerEvents` (src/index.ts lines 503-508):
invokes every registered `enqueue` listener with the entry, in
registration order; each invocation is recorded in the log. -/
def triggerEvents {T : Type} (q : Queue T) (entry : T) : Queue T :=
  { q with firedEvents := q.firedEvents ++ q.eventListeners.map (fun lid => (lid, entry)) }

/-- Embedding of `clear` (src/index.ts lines 267-271): empties the queue
and returns the number of entries that were cleared. -/
def clear {T : Type} (q : Queue T) : Queue T × Nat :=
  ({ q with queue := [] }, q.queue.length)

/-- Embedding of `clearPending` (src/index.ts lines 291-301): cancels
every pending timer (`clearTimeout` loop, implicit here), empties the
pending map and returns the number of pending entries that were
cleared. -/
def clearPending {T : Type} (q : Queue T) : Queue T × Nat :=
  ({ q with pendingEntries := [] }, q.pendingEntries.length)

/-- Embedding of `clearAll` (src/index.ts lines 278-283): `clearPending`
followed by `clear`, returning the sum of both counts. -/
def clearAll {T : Type} (q : Queue T) : Queue T × Nat :=
  let r1 := clearPending q
  let r2 := clear r1.1
  (r2.1, r1.2 + r2.2)

/-- Embedding of `clearPendingEntry` (src/index.ts lines 308-319): if a
pending record for `keyOf entry` exists, cancels its timer (implicit) and
removes it, returning `true`; otherwise returns `false` and changes
nothing. -/
def clearPendingEntry {T : Type} (keyOf : T → String) (q : Queue T) (entry : T) :
    Queue T × Bool :=
  let stringEntry := keyOf entry
  if mapHas q.pendingEntries stringEntry then
    ({ q with pendingEntries := mapDelete q.pendingEntries stringEntry }, true)
  else
    (q, false)

/-- Embedding of `dequeue` (src/index.ts lines 325-327): `Array.shift`
removes and returns the front entry, or returns `undefined` on an empty
queue, leaving it unchanged. -/
def dequeue {T : Type} (q : Queue T) : Queue T × Option T :=
  match q.queue with
  | [] => (q, none)
  | x :: rest => ({ q with queue := rest }, some x)

/-- Embedding of `enqueue` (src/index.ts lines 336-371): first
unconditionally clears any pending record for the entry's key; with a
non-positive effective delay, admits synchronously unless an equal entry
is already in the queue (duplicate guard), notifying listeners on
admission; with a positive delay, arms a timer and stores the pending
record `{timeout, value}` under the key. -/
def enqueue {T : Type} [DecidableEq T] (keyOf : T → String) (q0 : Queue T)
    (entry : T) (entryDelayMilliseconds : Option Int) : Queue T :=
  let q := (clearPendingEntry keyOf q0 entry).1
  let delay := entryDelayMilliseconds.getD q.enqueueDelayMilliseconds
  if delay ≤ 0 then
    if jsIncludes q.queue entry then q
    else triggerEvents { q with queue := q.queue ++ [entry] } entry
  else
    { q with pendingEntries := mapSet q.pendingEntries (keyOf entry) entry }

/-- Embedding of `enqueueAll` (src/index.ts lines 380-384): `enqueue` on
each entry in iteration order. -/
def enqueueAll {T : Type} [DecidableEq T] (keyOf : T → String) (q : Queue T)
    (entries : List T) (entryDelayMilliseconds : Option Int) : Queue T :=
  entries.foldl (fun acc e => enqueue keyOf acc e entryDelayMilliseconds) q

/-- Embedding of the `setTimeout` callback armed by `enqueue`
(src/index.ts lines 356-368), i.e. the timer-expiry transition for key
`k`: deletes the pending record, then appends the captured entry and
notifies listeners unless an equal entry is already in the queue.  When
the key is absent the timer was canceled (`clearTimeout`) and the
callback never runs, so the state is unchanged. -/
def fireTimer {T : Type} [DecidableEq T] (q : Queue T) (k : String) : Queue T :=
  match mapGetValue q.pendingEntries k with
  | none => q
  | some v =>
    let q1 := { q with pendingEntries := mapDelete q.pendingEntries k }
    if jsIncludes q1.queue v then q1
    else triggerEvents { q1 with queue := q1.queue ++ [v] } v

/-- Loop body of `enqueuePending` (src/index.ts lines 397-421) over the
snapshot of the pending entries: for each record, delete it from the
pending map, cancel its timer (implicit), and admit its value with the
same duplicate guard and listener notification as timer expiry.  The JS
`for..of` over `Map.keys()` deletes only the current key, so it visits
exactly the entries present when the loop starts, in insertion order. -/
def flushPendingList {T : Type} [DecidableEq T] :
    List (String × T) → Queue T → Queue T
  | [], q => q
  | (k, v) :: rest, q =>
    let q1 := { q with pendingEntries := mapDelete q.pendingEntries k }
    let q2 :=
      if jsIncludes q1.queue v then q1
      else triggerEvents { q1 with queue := q1.queue ++ [v] } v
    flushPendingList rest q2

/-- Embedding of `enqueuePending` (src/index.ts lines 397-421): flushes
every pending record immediately. -/
def enqueuePending {T : Type} [DecidableEq T] (q : Queue T) : Queue T :=
  flushPendingList q.pendingEntries q

/-- Embedding of `enqueueDelay` (src/index.ts lines 390-392). -/
def enqueueDelay {T : Type} (q : Queue T) : Queue T × Int :=
  (q, q.enqueueDelayMilliseconds)

/-- Embedding of `hasPending` (src/index.ts lines 427-429). -/
def hasPending {T : Type} (q : Queue T) : Queue T × Bool :=
  (q, decide (0 < q.pendingEntries.length))

/-- Embedding of `hasPendingEntry` (src/index.ts lines 436-439). -/
def hasPendingEntry {T : Type} (keyOf : T → String) (q : Queue T) (entry : T) :
    Queue T × Bool :=
  (q, mapHas q.pendingEntries (keyOf entry))

/-- Embedding of `isEmpty` (src/index.ts lines 445-447). -/
def isEmpty {T : Type} (q : Queue T) : Queue T × Bool :=
  (q, decide (q.queue.length = 0))

/-- Embedding of `pendingSize` (src/index.ts lines 453-455). -/
def pendingSize {T : Type} (q : Queue T) : Queue T × Nat :=
  (q, q.pendingEntries.length)

/-- Embedding of `size` (src/index.ts lines 491-493). -/
def size {T : Type} (q : Queue T) : Queue T × Nat :=
  (q, q.queue.length)

/-- Embedding of `toArray` (src/index.ts lines 499-501): the snapshot
copy `[...this.queue]`. -/
def toArray {T : Type} (q : Queue T) : Queue T × List T :=
  (q, q.queue)

/-- Embedding of `pendingToArray` (src/index.ts lines 461-469): pushes
each pending record's value, in the pending map's insertion order. -/
def pendingToArray {T : Type} (q : Queue T) : Queue T × List T :=
  (q, q.pendingEntries.map (fun p => p.2))

/-- One externally observable transition of the queue: a public method
call or the expiry of an armed timer. -/
inductive Op (T : Type) where
  | opAddEventListener (listenerId : String)
  | opClear
  | opClearAll
  | opClearPending
  | opClearPendingEntry (entry : T)
  | opDequeue
  | opEnqueue (entry : T) (entryDelayMilliseconds : Option Int)
  | opEnqueueAll (entries : List T) (entryDelayMilliseconds : Option Int)
  | opEnqueueDelay
  | opEnqueuePending
  | opFireTimer (k : String)
  | opHasPending
  | opHasPendingEntry (entry : T)
  | opIsEmpty
  | opPendingSize
  | opPendingToArray
  | opRemoveEventListener (listenerId : String)
  | opSize
  | opToArray

/-- The state reached after one transition. -/
def applyOp {T : Type} [DecidableEq T] (keyOf : T → String) (q : Queue T) :
    Op T → Queue T
  | .opAddEventListener lid => addEventListener q lid
  | .opClear => (clear q).1
  | .opClearAll => (clearAll q).1
  | .opClearPending => (clearPending q).1
  | .opClearPendingEntry e => (clearPendingEntry keyOf q e).1
  | .opDequeue => (dequeue q).1
  | .opEnqueue e d => enqueue keyOf q e d
  | .opEnqueueAll es d => enqueueAll keyOf q es d
  | .opEnqueueDelay => (enqueueDelay q).1
  | .opEnqueuePending => enqueuePending q
  | .opFireTimer k => fireTimer q k
  | .opHasPending => (hasPending q).1
  | .opHasPendingEntry e => (hasPendingEntry keyOf q e).1
  | .opIsEmpty => (isEmpty q).1
  | .opPendingSize => (pendingSize q).1
  | .opPendingToArray => (pendingToArray q).1
  | .opRemoveEventListener lid => removeEventListener q lid
  | .opSize => (size q).1
  | .opToArray => (toArray q).1

/-- The state reached after a sequence of transitions. -/
def execOps {T : Type} [DecidableEq T] (keyOf : T → String) (q : Queue T)
    (ops : List (Op T)) : Queue T :=
  ops.foldl (fun acc op => applyOp keyOf acc op) q

/-- A map holds at most one record per key. -/
def KeysNodup {α : Type} (m : List (String × α)) : Prop :=
  (m.map Prod.fst).Nodup

instance {α : Type} (m : List (String × α)) : Decidable (KeysNodup m) := by
  unfold KeysNodup
  infer_instance

/-! Basic lemmas about the association-list embedding of JS `Map`. -/

theorem mapHas_pos {α : Type} {m : List (String × α)} {k : String}
    (h : mapHas m k = true) : 0 < m.length := by
  cases m with
  | nil => simp [mapHas] at h
  | cons p rest => simp

theorem length_mapDelete {α : Type} {m : List (String × α)} {k : String}
    (h : mapHas m k = true) : (mapDelete m k).length = m.length - 1 := by
  induction m with
  | nil => simp [mapHas] at h
  | cons p rest ih =>
    by_cases hp : p.1 = k
    · simp [mapDelete, hp]
    · rw [mapHas, if_neg hp] at h
      rw [mapDelete, if_neg hp]
      have hpos := mapHas_pos h
      simp only [List.length_cons, ih h]
      omega

theorem mem_keys_mapDelete {α : Type} {m : List (String × α)} {k x : String}
    (h : x ∈ (mapDelete m k).map Prod.fst) : x ∈ m.map Prod.fst := by
  induction m with
  | nil => simp [mapDelete] at h
  | cons p rest ih =>
    by_cases hp : p.1 = k
    · rw [mapDelete, if_pos hp] at h
      simp only [List.map_cons, List.mem_cons]
      exact Or.inr h
    · rw [mapDelete, if_neg hp] at h
      simp only [List.map_cons, List.mem_cons] at h ⊢
      exact h.imp id ih

theorem keysNodup_mapDelete {α : Type} {m : List (String × α)} {k : String}
    (h : KeysNodup m) : KeysNodup (mapDelete m k) := by
  induction m with
  | nil => simpa [mapDelete] using h
  | cons p rest ih =>
    unfold KeysNodup at h ⊢
    simp only [List.map_cons, List.nodup_cons] at h
    by_cases hp : p.1 = k
    · rw [mapDelete, if_pos hp]
      exact h.2
    · rw [mapDelete, if_neg hp]
      simp only [List.map_cons, List.nodup_cons]
      exact ⟨fun hmem => h.1 (mem_keys_mapDelete hmem), ih h.2⟩

theorem mapHas_eq_true_of_mem_keys {α : Type} {m : List (String × α)} {k : String}
    (h : k ∈ m.map Prod.fst) : mapHas m k = true := by
  induction m with
  | nil => simp at h
  | cons p rest ih =>
    simp only [List.map_cons, List.mem_cons] at h
    by_cases hp : p.1 = k
    · rw [mapHas, if_pos hp]
    · rw [mapHas, if_neg hp]
      exact ih (h.resolve_left fun hk => hp hk.symm)

theorem mem_keys_of_mapHas {α : Type} {m : List (String × α)} {k : String}
    (h : mapHas m k = true) : k ∈ m.map Prod.fst := by
  induction m with
  | nil => simp [mapHas] at h
  | cons p rest ih =>
    by_cases hp : p.1 = k
    · simp [hp]
    · rw [mapHas, if_neg hp] at h
      simp only [List.map_cons, List.mem_cons]
      exact Or.inr (ih h)

theorem mapHas_mapDelete_self {α : Type} {m : List (String × α)} {k : String}
    (h : KeysNodup m) : mapHas (mapDelete m k) k = false := by
  induction m with
  | nil => simp [mapDelete, mapHas]
  | cons p rest ih =>
    unfold KeysNodup at h
    simp only [List.map_cons, List.nodup_cons] at h
    by_cases hp : p.1 = k
    · rw [mapDelete, if_pos hp]
      cases hk : mapHas rest k with
      | false => rfl
      | true => exact absurd (hp ▸ mem_keys_of_mapHas hk) h.1
    · rw [mapDelete, if_neg hp, mapHas, if_neg hp]
      exact ih h.2

theorem mem_keys_mapSet {α : Type} {m : List (String × α)} {k x : String} {v : α}
    (h : x ∈ (mapSet m k v).map Prod.fst) : x = k ∨ x ∈ m.map Prod.fst := by
  induction m with
  | nil => simpa [mapSet] using h
  | cons p rest ih =>
    by_cases hp : p.1 = k
    · rw [mapSet, if_pos hp] at h
      simp only [List.map_cons, List.mem_cons] at h ⊢
      exact h.imp id (fun hr => Or.inr hr)
    · rw [mapSet, if_neg hp] at h
      simp only [List.map_cons, List.mem_cons] at h ⊢
      rcases h with h | h
      · exact Or.inr (Or.inl h)
      · exact (ih h).imp id Or.inr

theorem keysNodup_mapSet {α : Type} {m : List (String × α)} {k : String} {v : α}
    (h : KeysNodup m) : KeysNodup (mapSet m k v) := by
  induction m with
  | nil => simp [mapSet, KeysNodup]
  | cons p rest ih =>
    unfold KeysNodup at h ⊢
    simp only [List.map_cons, List.nodup_cons] at h
    by_cases hp : p.1 = k
    · rw [mapSet, if_pos hp]
      simp only [List.map_cons, List.nodup_cons]
      exact ⟨fun hmem => h.1 (hp ▸ hmem), h.2⟩
    · rw [mapSet, if_neg hp]
      simp only [List.map_cons, List.nodup_cons]
      refine ⟨fun hmem => ?_, ih h.2⟩
      rcases mem_keys_mapSet hmem with hk | hmem'
      · exact hp hk
      · exact h.1 hmem'

theorem jsIncludes_eq_true_iff {α : Type} [DecidableEq α] {l : List α} {a : α} :
    jsIncludes l a = true ↔ a ∈ l := by
  induction l with
  | nil => simp [jsIncludes]
  | cons x rest ih =>
    by_cases hx : x = a
    · simp [jsIncludes, hx]
    · rw [jsIncludes, if_neg hx]
      simp only [List.mem_cons, ih]
      constructor
      · exact Or.inr
      · intro h
        exact h.resolve_left fun ha => hx ha.symm

theorem not_mem_listRemove_self {α : Type} [DecidableEq α] {l : List α} {a : α}
    (h : l.Nodup) : a ∉ listRemove l a := by
  induction l with
  | nil => simp [listRemove]
  | cons x rest ih =>
    simp only [List.nodup_cons] at h
    by_cases hx : x = a
    · rw [listRemove, if_pos hx]
      exact hx ▸ h.1
    · rw [listRemove, if_neg hx]
      intro hmem
      rcases List.mem_cons.mp hmem with hx' | hmem'
      · exact hx hx'.symm
      · exact ih h.2 hmem'

/-! Frame lemmas: which state fields each operation leaves untouched. -/

@[simp]
theorem triggerEvents_pendingEntries {T : Type} (q : Queue T) (e : T) :
    (triggerEvents q e).pendingEntries = q.pendingEntries := rfl

@[simp]
theorem triggerEvents_queue {T : Type} (q : Queue T) (e : T) :
    (triggerEvents q e).queue = q.queue := rfl

@[simp]
theorem triggerEvents_eventListeners {T : Type} (q : Queue T) (e : T) :
    (triggerEvents q e).eventListeners = q.eventListeners := rfl

@[simp]
theorem triggerEvents_firedEvents {T : Type} (q : Queue T) (e : T) :
    (triggerEvents q e).firedEvents
      = q.firedEvents ++ q.eventListeners.map (fun lid => (lid, e)) := rfl

@[simp]
theorem clearPendingEntry_fst_queue {T : Type} (keyOf : T → String) (q : Queue T)
    (e : T) : (clearPendingEntry keyOf q e).1.queue = q.queue := by
  simp only [clearPendingEntry]
  split <;> rfl

@[simp]
theorem clearPendingEntry_fst_eventListeners {T : Type} (keyOf : T → String)
    (q : Queue T) (e : T) :
    (clearPendingEntry keyOf q e).1.eventListeners = q.eventListeners := by
  simp only [clearPendingEntry]
  split <;> rfl

@[simp]
theorem clearPendingEntry_fst_firedEvents {T : Type} (keyOf : T → String)
    (q : Queue T) (e : T) :
    (clearPendingEntry keyOf q e).1.firedEvents = q.firedEvents := by
  simp only [clearPendingEntry]
  split <;> rfl

@[simp]
theorem clearPendingEntry_fst_delay {T : Type} (keyOf : T → String) (q : Queue T)
    (e : T) :
    (clearPendingEntry keyOf q e).1.enqueueDelayMilliseconds
      = q.enqueueDelayMilliseconds := by
  simp only [clearPendingEntry]
  split <;> rfl

@[simp]
theorem dequeue_fst_pendingEntries {T : Type} (q : Queue T) :
    (dequeue q).1.pendingEntries = q.pendingEntries := by
  unfold dequeue
  split <;> rfl

/-! Preservation of key uniqueness by every transition. -/

theorem keysNodup_clearPendingEntry {T : Type} {keyOf : T → String} {q : Queue T}
    {e : T} (h : KeysNodup q.pendingEntries) :
    KeysNodup ((clearPendingEntry keyOf q e).1).pendingEntries := by
  simp only [clearPendingEntry]
  split
  · exact keysNodup_mapDelete h
  · exact h

theorem keysNodup_enqueue {T : Type} [DecidableEq T] {keyOf : T → String}
    {q : Queue T} {e : T} {d : Option Int} (h : KeysNodup q.pendingEntries) :
    KeysNodup (enqueue keyOf q e d).pendingEntries := by
  have h1 : KeysNodup ((clearPendingEntry keyOf q e).1).pendingEntries :=
    keysNodup_clearPendingEntry h
  simp only [enqueue]
  split
  · split
    · exact h1
    · exact h1
  · exact keysNodup_mapSet h1

theorem keysNodup_enqueueAll {T : Type} [DecidableEq T] (keyOf : T → String)
    (d : Option Int) :
    ∀ (es : List T) (q : Queue T), KeysNodup q.pendingEntries →
      KeysNodup (enqueueAll keyOf q es d).pendingEntries := by
  intro es
  induction es with
  | nil => intro q h; exact h
  | cons e rest ih =>
    intro q h
    exact ih (enqueue keyOf q e d) (keysNodup_enqueue h)

theorem keysNodup_fireTimer {T : Type} [DecidableEq T] {q : Queue T} {k : String}
    (h : KeysNodup q.pendingEntries) : KeysNodup (fireTimer q k).pendingEntries := by
  unfold fireTimer
  split
  · exact h
  · dsimp only
    split
    · exact keysNodup_mapDelete h
    · exact keysNodup_mapDelete h

theorem keysNodup_flushPendingList {T : Type} [DecidableEq T] :
    ∀ (l : List (String × T)) (q : Queue T), KeysNodup q.pendingEntries →
      KeysNodup (flushPendingList l q).pendingEntries := by
  intro l
  induction l with
  | nil => intro q h; exact h
  | cons p rest ih =>
    intro q h
    obtain ⟨k, v⟩ := p
    simp only [flushPendingList]
    apply ih
    split
    · exact keysNodup_mapDelete h
    · exact keysNodup_mapDelete h

theorem keysNodup_applyOp {T : Type} [DecidableEq T] {keyOf : T → String}
    {q : Queue T} (op : Op T) (h : KeysNodup q.pendingEntries) :
    KeysNodup (applyOp keyOf q op).pendingEntries := by
  cases op with
  | opAddEventListener lid =>
    simp only [applyOp, addEventListener]
    split
    · exact h
    · exact h
  | opClear => exact h
  | opClearAll => simp [applyOp, clearAll, clear, clearPending, KeysNodup]
  | opClearPending => simp [applyOp, clearPending, KeysNodup]
  | opClearPendingEntry e => exact keysNodup_clearPendingEntry h
  | opDequeue => simpa [applyOp] using h
  | opEnqueue e d => exact keysNodup_enqueue h
  | opEnqueueAll es d => exact keysNodup_enqueueAll keyOf d es q h
  | opEnqueueDelay => exact h
  | opEnqueuePending => exact keysNodup_flushPendingList q.pendingEntries q h
  | opFireTimer k => exact keysNodup_fireTimer h
  | opHasPending => exact h
  | opHasPendingEntry e => exact h
  | opIsEmpty => exact h
  | opPendingSize => exact h
  | opPendingToArray => exact h
  | opRemoveEventListener lid => exact h
  | opSize => exact h
  | opToArray => exact h

theorem keysNodup_execOps {T : Type} [DecidableEq T] {keyOf : T → String} :
    ∀ (ops : List (Op T)) (q : Queue T), KeysNodup q.pendingEntries →
      KeysNodup (execOps keyOf q ops).pendingEntries := by
  intro ops
  induction ops with
  | nil => intro q h; exact h
  | cons op rest ih =>
    intro q h
    exact ih (applyOp keyOf q op) (keysNodup_applyOp op h)

/-- C1: at most one pending record exists per key at any time.  `enqueue`
unconditionally clears any pending record for the entry's key before
admitting immediately or arming a new timer (its body starts with
`clearPendingEntry`), and every other transition only deletes or clears
pending records, so starting from a freshly constructed queue, after any
sequence of operations (method calls and timer expiries) the keys of the
pending map are pairwise distinct. -/
theorem c1_pending_key_unique {T : Type} [DecidableEq T] (keyOf : T → String)
    (d : Int) (ops : List (Op T)) :
    KeysNodup (execOps keyOf (initQueue T d) ops).pendingEntries :=
  keysNodup_execOps ops (initQueue T d) (by simp [initQueue, KeysNodup])

/-- Witness for C1 at a concrete operation sequence over `JSVal` entries
keyed by `valueToString`. -/
theorem c1_pending_key_unique_witness :
    KeysNodup (execOps valueToString (initQueue JSVal 60000)
      [Op.opEnqueue (JSVal.str "entry1") none,
       Op.opEnqueue (JSVal.str "entry2") none,
       Op.opEnqueue (JSVal.str "entry1") (some 0),
       Op.opFireTimer "entry2"]).pendingEntries :=
  c1_pending_key_unique valueToString 60000
    [Op.opEnqueue (JSVal.str "entry1") none,
     Op.opEnqueue (JSVal.str "entry2") none,
     Op.opEnqueue (JSVal.str "entry1") (some 0),
     Op.opFireTimer "entry2"]

/-- Concrete state used to refute C2 as stated: `entry1` has already been
admitted to the queue. -/
def c2State : Queue JSVal :=
  { enqueueDelayMilliseconds := 60000
    eventListeners := []
    pendingEntries := []
    queue := [JSVal.str "entry1"]
    firedEvents := [] }

/-- C2 counterexample: `enqueue(e, 0)` does not always increase `size()`
by one.  In the richer variant the zero-delay path is guarded by
`queue.includes(entry)` (src/index.ts line 342), so when an equal entry is
already admitted the call is a no-op on the queue: here `size()` stays 1
instead of becoming 2. -/
theorem c2_zero_delay_counterexample :
    (size (enqueue valueToString c2State (JSVal.str "entry1") (some 0))).2 = 1
    ∧ (size c2State).2 = 1
    ∧ ¬ ((size (enqueue valueToString c2State (JSVal.str "entry1") (some 0))).2
          = (size c2State).2 + 1) := by
  decide

/-- C2 amended: provided no pending record exists for the entry's key and
no equal entry is already admitted, `enqueue(e, 0)` admits `e`
synchronously within the call: `pendingSize()` is unchanged, `size()`
increases by exactly one, and no pending record (hence no timer) is
created — the pending map is untouched. -/
theorem c2_zero_delay_amended {T : Type} [DecidableEq T] (keyOf : T → String)
    (q : Queue T) (e : T)
    (hpend : mapHas q.pendingEntries (keyOf e) = false)
    (hdup : jsIncludes q.queue e = false) :
    (pendingSize (enqueue keyOf q e (some 0))).2 = (pendingSize q).2
    ∧ (size (enqueue keyOf q e (some 0))).2 = (size q).2 + 1
    ∧ (enqueue keyOf q e (some 0)).pendingEntries = q.pendingEntries := by
  have hq1 : (clearPendingEntry keyOf q e).1 = q := by
    simp [clearPendingEntry, hpend]
  simp [enqueue, hq1, hdup, pendingSize, size, triggerEvents]

/-- Witness for the amended C2 on a freshly constructed queue. -/
theorem c2_zero_delay_amended_witness :
    mapHas (initQueue JSVal 60000).pendingEntries
        (valueToString (JSVal.str "entry1")) = false
    ∧ jsIncludes (initQueue JSVal 60000).queue (JSVal.str "entry1") = false
    ∧ (pendingSize (enqueue valueToString (initQueue JSVal 60000)
        (JSVal.str "entry1") (some 0))).2 = (pendingSize (initQueue JSVal 60000)).2
    ∧ (size (enqueue valueToString (initQueue JSVal 60000)
        (JSVal.str "entry1") (some 0))).2 = (size (initQueue JSVal 60000)).2 + 1 := by
  refine ⟨by decide, by decide, ?_, ?_⟩
  · exact (c2_zero_delay_amended valueToString (initQueue JSVal 60000)
      (JSVal.str "entry1") (by decide) (by decide)).1
  · exact (c2_zero_delay_amended valueToString (initQueue JSVal 60000)
      (JSVal.str "entry1") (by decide) (by decide)).2.1

/-- Closed form of the timer-expiry transition when the key is still
pending: the record is removed, and the stored value is admitted (with
listener notification) unless an equal entry is already in the queue. -/
theorem fireTimer_eq_of_lookup {T : Type} [DecidableEq T] {q : Queue T}
    {k : String} {v : T} (h : mapGetValue q.pendingEntries k = some v) :
    fireTimer q k =
      if jsIncludes q.queue v then
        { q with pendingEntries := mapDelete q.pendingEntries k }
      else
        { q with
          pendingEntries := mapDelete q.pendingEntries k
          queue := q.queue ++ [v]
          firedEvents := q.firedEvents ++ q.eventListeners.map (fun lid => (lid, v)) } := by
  by_cases hv : jsIncludes q.queue v = true
  · simp [fireTimer, h, hv, triggerEvents]
  · simp only [Bool.not_eq_true] at hv
    simp [fireTimer, h, hv, triggerEvents]

/-- C3: when a pending entry's timer expires, and likewise for each record
processed by the forced flush, the pending record is removed first; then,
if an equal entry is already admitted, re-admission is skipped (no append,
no listener notification), otherwise the stored value is appended to the
queue and listeners are notified.  The last conjunct states that one step
of the `enqueuePending` loop over a snapshot record is exactly the
timer-expiry transition for that record. -/
theorem c3_expiry_and_flush {T : Type} [DecidableEq T] (q : Queue T)
    (k : String) (v : T) (rest : List (String × T))
    (h : mapGetValue q.pendingEntries k = some v) :
    (fireTimer q k).pendingEntries = mapDelete q.pendingEntries k
    ∧ (jsIncludes q.queue v = true →
        (fireTimer q k).queue = q.queue
        ∧ (fireTimer q k).firedEvents = q.firedEvents)
    ∧ (jsIncludes q.queue v = false →
        (fireTimer q k).queue = q.queue ++ [v]
        ∧ (fireTimer q k).firedEvents
            = q.firedEvents ++ q.eventListeners.map (fun lid => (lid, v)))
    ∧ flushPendingList ((k, v) :: rest) q = flushPendingList rest (fireTimer q k) := by
  rw [fireTimer_eq_of_lookup h]
  refine ⟨?_, ?_, ?_, ?_⟩
  · split <;> rfl
  · intro hv; simp [hv]
  · intro hv; simp [hv]
  · simp only [flushPendingList]
    by_cases hv : jsIncludes q.queue v = true
    · simp [hv, triggerEvents]
    · simp only [Bool.not_eq_true] at hv
      simp [hv, triggerEvents]

/-- Witness for C3 at a concrete state with one pending record and one
already-admitted duplicate candidate absent. -/
theorem c3_expiry_and_flush_witness :
    (fireTimer
      { enqueueDelayMilliseconds := 60000
        eventListeners := ["listener1"]
        pendingEntries := [("entry1", JSVal.str "entry1")]
        queue := []
        firedEvents := [] } "entry1").pendingEntries
      = mapDelete [("entry1", JSVal.str "entry1")] "entry1" := by
  exact (c3_expiry_and_flush
    { enqueueDelayMilliseconds := 60000
      eventListeners := ["listener1"]
      pendingEntries := [("entry1", JSVal.str "entry1")]
      queue := []
      firedEvents := [] } "entry1" (JSVal.str "entry1") [] (by decide)).1

/-- C4: construction with a negative default delay follows one
consistently applied policy per variant: variant 1 fails fast with an
error before any state is created, variant 2 clamps the stored delay with
`Math.max(0, d)`; in either case a successfully constructed queue's
`enqueueDelay()` is non-negative. -/
theorem c4_constructor_policy (T : Type) :
    (∀ d : Int, d < 0 →
      constructV1 T d
        = Except.error "enqueueDelayMilliseconds must be non-negative")
    ∧ (∀ (d : Int) (q1 : QueueV1 T), constructV1 T d = Except.ok q1 →
        q1.enqueueDelayMilliseconds = d ∧ 0 ≤ q1.enqueueDelayMilliseconds)
    ∧ (∀ d : Int, (initQueue T d).enqueueDelayMilliseconds = max 0 d
        ∧ 0 ≤ (initQueue T d).enqueueDelayMilliseconds) := by
  refine ⟨?_, ?_, ?_⟩
  · intro d hd
    simp [constructV1, hd]
  · intro d q1 hq
    by_cases hd : d < 0
    · simp [constructV1, hd] at hq
    · simp [constructV1, hd] at hq
      subst hq
      refine ⟨rfl, ?_⟩
      show (0 : Int) ≤ d
      omega
  · intro d
    exact ⟨rfl, le_max_left 0 d⟩

/-- Witness for C4: a negative delay is rejected by variant 1 and clamped
to zero by variant 2, while a non-negative delay is stored unchanged. -/
theorem c4_constructor_policy_witness :
    constructV1 JSVal (-5)
      = Except.error "enqueueDelayMilliseconds must be non-negative"
    ∧ ((⟨3, [], []⟩ : QueueV1 JSVal).enqueueDelayMilliseconds = 3
        ∧ 0 ≤ (⟨3, [], []⟩ : QueueV1 JSVal).enqueueDelayMilliseconds)
    ∧ ((initQueue JSVal (-5)).enqueueDelayMilliseconds = max 0 (-5)
        ∧ 0 ≤ (initQueue JSVal (-5)).enqueueDelayMilliseconds) := by
  refine ⟨(c4_constructor_policy JSVal).1 (-5) (by decide),
    (c4_constructor_policy JSVal).2.1 3 ⟨3, [], []⟩ (by simp [constructV1]),
    (c4_constructor_policy JSVal).2.2 (-5)⟩

/-- C5: every admission — zero-delay enqueue, timer expiry, and forced
flush — synchronously appends one invocation record per registered
listener, with the admitted entry, in registration order (the order of
`eventListeners`, which `addEventListener` extends at the end); a
listener removed via `removeEventListener` is no longer registered and
hence is not invoked by later admissions. -/
theorem c5_listener_notification {T : Type} [DecidableEq T] (keyOf : T → String)
    (q : Queue T) (e v : T) (k lid : String) :
    (jsIncludes q.eventListeners lid = false →
      (addEventListener q lid).eventListeners = q.eventListeners ++ [lid])
    ∧ (jsIncludes q.queue e = false →
      (enqueue keyOf q e (some 0)).firedEvents
        = q.firedEvents ++ q.eventListeners.map (fun l => (l, e)))
    ∧ (mapGetValue q.pendingEntries k = some v → jsIncludes q.queue v = false →
      (fireTimer q k).firedEvents
        = q.firedEvents ++ q.eventListeners.map (fun l => (l, v)))
    ∧ (q.pendingEntries = [(k, v)] → jsIncludes q.queue v = false →
      (enqueuePending q).firedEvents
        = q.firedEvents ++ q.eventListeners.map (fun l => (l, v)))
    ∧ (List.Nodup q.eventListeners →
      lid ∉ (removeEventListener q lid).eventListeners) := by
  refine ⟨?_, ?_, ?_, ?_, ?_⟩
  · intro hl
    simp [addEventListener, hl]
  · intro hdup
    simp [enqueue, hdup]
  · intro h hv
    rw [fireTimer_eq_of_lookup h]
    simp [hv]
  · intro hp hv
    simp [enqueuePending, hp, flushPendingList, mapDelete, hv, triggerEvents]
  · intro hnd
    exact not_mem_listRemove_self hnd

/-- Concrete state used in the C5 witness: two registered listeners and
one pending record. -/
def c5State : Queue JSVal :=
  { enqueueDelayMilliseconds := 60000
    eventListeners := ["listenerA", "listenerB"]
    pendingEntries := [("entry2", JSVal.str "entry2")]
    queue := []
    firedEvents := [] }

/-- Witness for C5: both listeners are notified, in registration order,
for a zero-delay admission and for a timer expiry, and a removed listener
is no longer registered. -/
theorem c5_listener_notification_witness :
    (enqueue valueToString c5State (JSVal.str "entry1") (some 0)).firedEvents
      = c5State.firedEvents
        ++ c5State.eventListeners.map (fun l => (l, JSVal.str "entry1"))
    ∧ (fireTimer c5State "entry2").firedEvents
      = c5State.firedEvents
        ++ c5State.eventListeners.map (fun l => (l, JSVal.str "entry2"))
    ∧ "listenerA" ∉ (removeEventListener c5State "listenerA").eventListeners := by
  refine ⟨?_, ?_, ?_⟩
  · exact (c5_listener_notification valueToString c5State (JSVal.str "entry1")
      (JSVal.str "entry1") "k" "lid").2.1 (by decide)
  · exact (c5_listener_notification valueToString c5State (JSVal.str "entry2")
      (JSVal.str "entry2") "entry2" "lid").2.2.1 (by decide) (by decide)
  · exact (c5_listener_notification valueToString c5State (JSVal.str "entry1")
      (JSVal.str "entry1") "k" "listenerA").2.2.2.2 (by decide)

/-- C6: `clearAll()` reaches exactly the state of `clearPending()` followed
by `clear()`; immediately afterwards both `size()` and `pendingSize()` are
0, and a second `clearAll()` on the resulting state returns that state
unchanged with count 0 (a no-op; all operations here are total functions,
so nothing throws). -/
theorem c6_clearAll_composition {T : Type} (q : Queue T) :
    (clearAll q).1 = (clear (clearPending q).1).1
    ∧ (size (clearAll q).1).2 = 0
    ∧ (pendingSize (clearAll q).1).2 = 0
    ∧ clearAll ((clearAll q).1) = ((clearAll q).1, 0) :=
  ⟨rfl, rfl, rfl, rfl⟩

/-- Concrete state used in the C6 witness: one admitted and one pending
entry. -/
def c6State : Queue JSVal :=
  { enqueueDelayMilliseconds := 60000
    eventListeners := []
    pendingEntries := [("entry1", JSVal.str "entry1")]
    queue := [JSVal.str "entry2"]
    firedEvents := [] }

/-- Witness for C6 at a concrete non-empty state. -/
theorem c6_clearAll_composition_witness :
    (clearAll c6State).1 = (clear (clearPending c6State).1).1
    ∧ (size (clearAll c6State).1).2 = 0
    ∧ (pendingSize (clearAll c6State).1).2 = 0
    ∧ clearAll ((clearAll c6State).1) = ((clearAll c6State).1, 0) :=
  c6_clearAll_composition c6State

/-- C7: `clearPendingEntry(e)` returns `true` exactly when a pending
record for `e`'s key exists; in that case the record is removed (its
timer canceled) and `pendingSize()` drops by one, and under the reachable
key-uniqueness invariant no record for the key remains; on a missing key
it returns `false` and leaves the whole state unchanged; in both cases
the admitted queue is untouched. -/
theorem c7_clearPendingEntry_spec {T : Type} (keyOf : T → String)
    (q : Queue T) (e : T) :
    (clearPendingEntry keyOf q e).2 = mapHas q.pendingEntries (keyOf e)
    ∧ (mapHas q.pendingEntries (keyOf e) = true →
        (clearPendingEntry keyOf q e).1.pendingEntries
            = mapDelete q.pendingEntries (keyOf e)
        ∧ (pendingSize (clearPendingEntry keyOf q e).1).2
            = (pendingSize q).2 - 1
        ∧ (KeysNodup q.pendingEntries →
            mapHas (clearPendingEntry keyOf q e).1.pendingEntries (keyOf e)
              = false))
    ∧ (mapHas q.pendingEntries (keyOf e) = false →
        (clearPendingEntry keyOf q e).1 = q)
    ∧ (clearPendingEntry keyOf q e).1.queue = q.queue := by
  refine ⟨?_, ?_, ?_, clearPendingEntry_fst_queue keyOf q e⟩
  · by_cases hh : mapHas q.pendingEntries (keyOf e) = true
    · simp [clearPendingEntry, hh]
    · simp only [Bool.not_eq_true] at hh
      simp [clearPendingEntry, hh]
  · intro hh
    refine ⟨by simp [clearPendingEntry, hh], ?_, ?_⟩
    · simp [clearPendingEntry, hh, pendingSize, length_mapDelete hh]
    · intro hnd
      simp [clearPendingEntry, hh, mapHas_mapDelete_self hnd]
  · intro hh
    simp [clearPendingEntry, hh]

/-- Concrete state used in the C7 witness. -/
def c7State : Queue JSVal :=
  { enqueueDelayMilliseconds := 60000
    eventListeners := []
    pendingEntries := [("entry1", JSVal.str "entry1")]
    queue := [JSVal.str "entry2"]
    firedEvents := [] }

/-- Witness for C7: hit on a present key, miss on an absent key. -/
theorem c7_clearPendingEntry_spec_witness :
    (clearPendingEntry valueToString c7State (JSVal.str "entry1")).2
      = mapHas c7State.pendingEntries (valueToString (JSVal.str "entry1"))
    ∧ (pendingSize (clearPendingEntry valueToString c7State
          (JSVal.str "entry1")).1).2 = (pendingSize c7State).2 - 1
    ∧ mapHas (clearPendingEntry valueToString c7State
          (JSVal.str "entry1")).1.pendingEntries
        (valueToString (JSVal.str "entry1")) = false
    ∧ (clearPendingEntry valueToString c7State (JSVal.str "entry3")).1 = c7State
    ∧ (clearPendingEntry valueToString c7State (JSVal.str "entry1")).1.queue
        = c7State.queue := by
  refine ⟨(c7_clearPendingEntry_spec valueToString c7State (JSVal.str "entry1")).1,
    ((c7_clearPendingEntry_spec valueToString c7State
      (JSVal.str "entry1")).2.1 (by decide)).2.1,
    ((c7_clearPendingEntry_spec valueToString c7State
      (JSVal.str "entry1")).2.1 (by decide)).2.2 (by decide),
    (c7_clearPendingEntry_spec valueToString c7State
      (JSVal.str "entry3")).2.2.1 (by decide),
    (c7_clearPendingEntry_spec valueToString c7State
      (JSVal.str "entry1")).2.2.2⟩

/-- C8: `dequeue()` removes and returns the front (earliest-admitted,
FIFO) entry of the admitted queue; on an empty queue it returns the
absent value `none` (JS `undefined`) without failing, leaving the state
unchanged. -/
theorem c8_dequeue_front {T : Type} (q : Queue T) :
    (q.queue = [] → dequeue q = (q, none))
    ∧ (∀ (x : T) (rest : List T), q.queue = x :: rest →
        dequeue q = ({ q with queue := rest }, some x)) := by
  constructor
  · intro h
    simp [dequeue, h]
  · intro x rest h
    simp [dequeue, h]

/-- Concrete state used in the C8 witness. -/
def c8State : Queue JSVal :=
  { enqueueDelayMilliseconds := 60000
    eventListeners := []
    pendingEntries := []
    queue := [JSVal.str "first", JSVal.str "second"]
    firedEvents := [] }

/-- Witness for C8: empty-queue and two-entry cases. -/
theorem c8_dequeue_front_witness :
    dequeue (initQueue JSVal 60000) = (initQueue JSVal 60000, none)
    ∧ dequeue c8State
      = ({ c8State with queue := [JSVal.str "second"] }, some (JSVal.str "first")) :=
  ⟨(c8_dequeue_front (initQueue JSVal 60000)).1 rfl,
   (c8_dequeue_front c8State).2 (JSVal.str "first") [JSVal.str "second"] rfl⟩

/-- C9: every query — `size`, `pendingSize`, `isEmpty`, `hasPending`,
`hasPendingEntry`, `toArray`, `pendingToArray`, `enqueueDelay` — returns
the state it was given unchanged (pending map, admitted queue, listener
registry, configured delay, event log); `toArray` returns the snapshot
copy of the admitted queue in order, and `pendingToArray` returns exactly
the current pending values.  (That the snapshots are fresh arrays rather
than aliases is a memory-layout fact with no counterpart in this
embedding, where all values are immutable.) -/
theorem c9_queries_pure {T : Type} (keyOf : T → String) (q : Queue T) (e : T) :
    (size q).1 = q ∧ (pendingSize q).1 = q ∧ (isEmpty q).1 = q
    ∧ (hasPending q).1 = q ∧ (hasPendingEntry keyOf q e).1 = q
    ∧ (toArray q).1 = q ∧ (pendingToArray q).1 = q ∧ (enqueueDelay q).1 = q
    ∧ (toArray q).2 = q.queue
    ∧ (pendingToArray q).2 = q.pendingEntries.map (fun p => p.2) :=
  ⟨rfl, rfl, rfl, rfl, rfl, rfl, rfl, rfl, rfl, rfl⟩

/-- Witness for C9 at a concrete state. -/
theorem c9_queries_pure_witness :
    (size c5State).1 = c5State
    ∧ (toArray c5State).2 = c5State.queue
    ∧ (pendingToArray c5State).2 = c5State.pendingEntries.map (fun p => p.2) :=
  ⟨(c9_queries_pure valueToString c5State (JSVal.str "entry1")).1,
   (c9_queries_pure valueToString c5State (JSVal.str "entry1")).2.2.2.2.2.2.2.2.1,
   (c9_queries_pure valueToString c5State (JSVal.str "entry1")).2.2.2.2.2.2.2.2.2⟩

/-- C10: `clear()` returns the number of admitted entries it removed (it
removes them all), `clearPending()` returns the number of pending records
it removed (canceling each timer), and `clearAll()` returns the sum of
both counts; on an already-empty queue each count is 0. -/
theorem c10_clear_counts {T : Type} (q : Queue T) :
    (clear q).2 = (size q).2 ∧ (clear q).1.queue = []
    ∧ (clearPending q).2 = (pendingSize q).2
    ∧ (clearPending q).1.pendingEntries = []
    ∧ (clearAll q).2 = (pendingSize q).2 + (size q).2
    ∧ ((size q).2 = 0 → (clear q).2 = 0)
    ∧ ((pendingSize q).2 = 0 → (clearPending q).2 = 0)
    ∧ ((size q).2 = 0 → (pendingSize q).2 = 0 → (clearAll q).2 = 0) := by
  refine ⟨rfl, rfl, rfl, rfl, rfl, ?_, ?_, ?_⟩
  · intro h1
    exact h1
  · intro h1
    exact h1
  · intro h1 h2
    simp only [clearAll, clear, clearPending, size, pendingSize] at *
    omega

/-- Witness for C10 on an already-empty queue and on `c6State`. -/
theorem c10_clear_counts_witness :
    (clear c6State).2 = (size c6State).2
    ∧ (clearAll c6State).2 = (pendingSize c6State).2 + (size c6State).2
    ∧ (clearAll (initQueue JSVal 60000)).2 = 0 :=
  ⟨(c10_clear_counts c6State).1,
   (c10_clear_counts c6State).2.2.2.2.1,
   (c10_clear_counts (initQueue JSVal 60000)).2.2.2.2.2.2.2 rfl rfl⟩

end UTEQ
